import Mathlib

/-!
# A shallow embedding of LAEH2 (`lib/laeh2.js`)

This file embeds the two core mechanisms of the LAEH2 library:

* `_e`  — the check/wrap/throw helper (`exports._e`);
* `_x`  — the try-catch wrapper for asynchronous callbacks (`exports._x`);
* `leanStacks` / `Error.prepareStackTrace` — the lean stack-trace renderer.

JavaScript values that flow through the wrapper are modelled by the inductive
type `JSVal`.  Error objects are mutable in JS, so they live in an explicit
`Store` (a total map from references to error records) that is threaded
through every operation.  Host coercions (`String(v)`, truthiness, `typeof`)
are modelled by `jsToString`, `truthy` and `typeofObject`.  `JSON.stringify`
is a host function and is kept abstract: the renderer receives it as a
function argument, exactly as the source delegates to it.
-/

/-- JavaScript values, as far as the library inspects them. -/
inductive JSVal where
  | undef : JSVal
  | nullv : JSVal
  | boolv (b : Bool) : JSVal
  | numv (n : Int) : JSVal
  | strv (s : String) : JSVal
  | funcv (id : Nat) : JSVal
  | errv (r : Nat) : JSVal
  | objv (id : Nat) : JSVal
deriving DecidableEq, Repr

/-- JavaScript truthiness (`if (v)`), for the values of `JSVal`. -/
def truthy : JSVal → Bool
  | .undef => false
  | .nullv => false
  | .boolv b => b
  | .numv n => n != 0
  | .strv s => s != ""
  | .funcv _ => true
  | .errv _ => true
  | .objv _ => true

/-- The test `typeof v === 'function'`. -/
def isFunc : JSVal → Bool
  | .funcv _ => true
  | _ => false

/-- The test `typeof v === 'object'` (`null` and `Error` objects are `'object'`). -/
def typeofObject : JSVal → Bool
  | .nullv => true
  | .errv _ => true
  | .objv _ => true
  | _ => false

/-- The host coercion `String(v)`. -/
def jsToString : JSVal → String
  | .undef => "undefined"
  | .nullv => "null"
  | .boolv b => if b then "true" else "false"
  | .numv n => toString n
  | .strv s => s
  | .funcv _ => "function"
  | .errv _ => "Error"
  | .objv _ => "[object Object]"

/-- Promotion `new Error(v)`: the message is `String(v)`, except that `new Error(undefined)`
    leaves the message empty. -/
def jsErrorMessage : JSVal → String
  | .undef => ""
  | v => jsToString v

/-- One JS `Error` object: its `message`, optional `meta` property and
    optional `prev` property (a reference to another error). -/
structure ErrObj where
  message : String
  meta : Option JSVal
  prev : Option Nat
deriving DecidableEq, Repr

/-- The heap of error objects: a total map from references plus an
    allocation counter. -/
structure Store where
  errs : Nat → ErrObj
  next : Nat

/-- Read an error object from the store. -/
def getErr (st : Store) (r : Nat) : ErrObj := st.errs r

/-- Overwrite the object at reference `r`. -/
def putErr (st : Store) (r : Nat) (o : ErrObj) : Store :=
  ⟨fun i => if i = r then o else st.errs i, st.next⟩

/-- Allocate a fresh error object, returning the new store and the reference. -/
def alloc (st : Store) (o : ErrObj) : Store × Nat :=
  (⟨fun i => if i = st.next then o else st.errs i, st.next + 1⟩, st.next)

/-- Mutation `e.prev = p` for the error at reference `r`. -/
def setPrev (st : Store) (r : Nat) (p : Nat) : Store :=
  putErr st r { getErr st r with prev := some p }

/-- Mutation `e.meta = m` for the error at reference `r`. -/
def setMeta (st : Store) (r : Nat) (m : JSVal) : Store :=
  putErr st r { getErr st r with meta := some m }

/-- A store with no allocated errors. -/
def emptyStore : Store := ⟨fun _ => ⟨"", none, none⟩, 0⟩

/-- The helper `exports._e = function(e, meta) { if(e) { if(!(e instanceof Error))
    e = new Error(e); if(meta) e.meta = meta; throw e; } }`.

    The result's second component is `some r` when the function throws the
    error at reference `r`, and `none` when it returns normally. -/
def _e (st : Store) (e : JSVal) (meta : JSVal) : Store × Option Nat :=
  if truthy e then
    let (st1, r) :=
      match e with
      | .errv r => (st, r)
      | _ => alloc st ⟨jsToString e, none, none⟩
    let st2 := if truthy meta then setMeta st1 r meta else st1
    (st2, some r)
  else
    (st, none)

/-- The immutable part of a `WrapperInstance` made by `_x`: the `chk` flag and
    the reference to the origin-capture error `prev = new Error()` allocated at
    construction time. -/
structure Wrapper where
  chk : Bool
  prev : Nat

/-- The behaviour of the wrapped `func`: given the invocation arguments and the
    current store it returns the new store and `some v` when it throws `v`
    (or `none` when it returns normally). -/
def FuncB : Type := List JSVal → Store → Store × Option JSVal

/-- The observable outcome of invoking a `WrapperInstance`:
    the body returned normally, or the completion handler was invoked once
    with the single error argument, or an exception escaped the wrapper. -/
inductive InvokeResult where
  | normal : InvokeResult
  | delivered (handler : JSVal) (e : Nat) : InvokeResult
  | thrown (v : JSVal) : InvokeResult
deriving DecidableEq, Repr

/-- Resolution `if(!cb) cb = a.length > 0 && typeof(a[a.length-1]) === 'function' ?
    a[a.length-1] : null;` — the value of the `cb` slot after resolution. -/
def resolveCb (cb0 : JSVal) (args : List JSVal) : JSVal :=
  if truthy cb0 then cb0
  else
    match args.getLast? with
    | some v => if isFunc v then v else .nullv
    | none => .nullv

/-- The `catch(e)` clause of the wrapper: promote a non-`Error` throwable,
    set `e.prev` to the origin capture, then either throw
    `new Error('missing callback')` (when the `cb` slot is falsy) or call
    `cb(e)`. -/
def catchPath (w : Wrapper) (cb1 : JSVal) (v : JSVal) (st : Store) :
    Store × InvokeResult :=
  let (st1, e) :=
    match v with
    | .errv r => (st, r)
    | _ => alloc st ⟨jsErrorMessage v, none, none⟩
  let st2 := setPrev st1 e w.prev
  if truthy cb1 then
    (st2, .delivered cb1 e)
  else
    let (st3, m) := alloc st2 ⟨"missing callback", none, none⟩
    (st3, .thrown (.errv m))

/-- Dispatch on the outcome of `func.apply(null, a)`: a normal return ends the
    invocation, a thrown value enters the catch clause. -/
def finish (w : Wrapper) (cb1 : JSVal) : Store × Option JSVal → Store × InvokeResult
  | (st, none) => (st, .normal)
  | (st, some v) => catchPath w cb1 v st

/-- One invocation of the function returned by `_x`.  `cb0` is the current
    value of the closure variable `cb`; the first component of the result is
    its value after the invocation (the slot is mutable and persists across
    invocations of the same instance). -/
def invoke (w : Wrapper) (func : FuncB) (cb0 : JSVal) (args : List JSVal)
    (st : Store) : JSVal × Store × InvokeResult :=
  match (if w.chk then _e st (args.headD .undef) .undef else (st, none)) with
  | (st1, some r) =>
      (resolveCb cb0 args, catchPath w (resolveCb cb0 args) (.errv r) st1)
  | (st1, none) =>
      (resolveCb cb0 args, finish w (resolveCb cb0 args) (func args st1))

/-! ## The lean stack-trace renderer (`leanStacks` / `Error.prepareStackTrace`) -/

/-- Replace the first occurrence of `pat` in a character list
    (`s.replace(cwdRegExp, '.')` with a non-global regex). -/
def replFirst (pat repl : List Char) : List Char → List Char
  | [] => []
  | c :: rest =>
      if pat.isPrefixOf (c :: rest) then repl ++ (c :: rest).drop pat.length
      else c :: replFirst pat repl rest

/-- Replace every occurrence of `pat` (`s.replace(/pat/g, repl)`), driven by a
    fuel counter so that the recursion is structural; `fuel = s.length`
    always suffices because every step consumes at least one character. -/
def replAllAux (pat repl : List Char) : Nat → List Char → List Char
  | _, [] => []
  | 0, s => s
  | fuel + 1, c :: rest =>
      if pat.isPrefixOf (c :: rest) && !pat.isEmpty then
        repl ++ replAllAux pat repl fuel ((c :: rest).drop pat.length)
      else c :: replAllAux pat repl fuel rest

/-- Global replacement `s.replace(/pat/g, repl)` on strings. -/
def replaceAllStr (s pat repl : String) : String :=
  ⟨replAllAux pat.data repl.data s.data.length s.data⟩

/-- Single replacement `s.replace(pat, repl)` (first occurrence only) on strings. -/
def replaceFirstStr (s pat repl : String) : String :=
  ⟨replFirst pat.data repl.data s.data⟩

/-- Fallback `o || d` for the string-or-absent results of the V8 frame accessors:
    `null`/`undefined` and the empty string both fall back to `d`. -/
def jsOrStr (o : Option String) (d : String) : String :=
  match o with
  | some s => if s = "" then d else s
  | none => d

/-- One raw V8 call-site object, as far as `prepareStackTrace` reads it. -/
structure Frame where
  fileName : Option String
  lineNumber : Option Nat
  isEvalF : Bool
  isNativeF : Bool
deriving DecidableEq, Repr

/-- Shortening `(f.getFileName() || '?').replace(cwd, '.').replace(/node_modules/g, '$')`. -/
def frameName (cwd : String) (f : Frame) : String :=
  replaceAllStr (replaceFirstStr (jsOrStr f.fileName "?") cwd ".") "node_modules" "$"

/-- Indicator `(f.getLineNumber() || '?') + (f.isEval() ? '*' : '') + (f.isNative() ? '+' : '')`
    (line number `0` is falsy and also falls back to `'?'`). -/
def lineStr (f : Frame) : String :=
  (match f.lineNumber with
   | some n => if n = 0 then "?" else toString n
   | none => "?") ++
  (if f.isEvalF then "*" else "") ++
  (if f.isNativeF then "+" else "")

/-- The regex test `/.*?laeh2.js$/.exec(n)`: the last eight characters are
    `laeh2`, any character, then `js`. -/
def laehMatch (n : String) : Bool :=
  let d := n.data
  decide (d.length ≥ 8) &&
    ((d.drop (d.length - 8)).take 5 == "laeh2".data) &&
    ((d.drop (d.length - 2)) == "js".data)

/-- The hiding test:
    `hiding && ((c !== '.' && c !== '/') || /.*?laeh2.js$/.exec(n))`. -/
def hiddenB (hid : Bool) (n : String) : Bool :=
  hid && ((n.front != '.' && n.front != '/') || laehMatch n)

/-- Mutation `stack[stack.length - 1] += s` — appends to the last entry; on an empty
    array the JS assignment to index `-1` leaves the array itself unchanged. -/
def extendLast : List String → String → List String
  | [], _ => []
  | [x], s => [x ++ s]
  | x :: y :: xs, s => x :: extendLast (y :: xs) s

/-- The frame loop of `prepareStackTrace`: filter hidden frames and either
    coalesce into the previous entry (note the hard-coded `' < '`) or push a
    new entry `n + '(' + ln`.  `prev` is the shortened name of the last
    surviving frame; `acc` is the `stack` array built so far. -/
def buildStack (hid : Bool) (cwd : String) :
    List Frame → Option String → List String → List String
  | [], _, acc => acc
  | f :: rest, prev, acc =>
      let n := frameName cwd f
      if hiddenB hid n then buildStack hid cwd rest prev acc
      else
        let ln := lineStr f
        if prev = some n then
          buildStack hid cwd rest (some n) (extendLast acc (" < " ++ ln))
        else
          buildStack hid cwd rest (some n) (acc ++ [n ++ "(" ++ ln])

/-- The second loop: `for(...) stack[i] += ')'`. -/
def closeStack (stack : List String) : List String :=
  stack.map (fun s => s ++ ")")

/-- Join `array.join(sep)` (also used to model `stack.join(fs)`). -/
def joinWith (sep : String) : List String → String
  | [] => ""
  | [x] => x
  | x :: y :: xs => x ++ sep ++ joinWith sep (y :: xs)

/-- The configuration installed by
    `leanStacks(hiding, prettyMeta, frameSeparator, fiberSeparator)`, plus the
    process state it reads (`process.cwd()`) and the host serializer
    `JSON.stringify(meta, null, prettyMeta)` it delegates to.  A `none`
    separator stands for an absent (or falsy) argument, so that `x || dflt`
    becomes `Option.getD`. -/
structure RenderCfg where
  hid : Bool
  prettyMeta : Option String
  frameSep : Option String
  fiberSep : Option String
  cwd : String
  json : JSVal → Option String → String

/-- A structured error as the renderer sees it: `message`, `meta`, the raw
    captured frames, and the `prev` chain.  The chain is a finite inductive
    value: each `prev` link is created strictly before the error referencing
    it, so no cycles occur. -/
inductive SE where
  | mk (message : String) (meta : JSVal) (frames : List Frame) (prev : Option SE) : SE

/-- The single-boundary part of the render: message segment, metadata segment
    and the coalesced frame list joined by the frame separator. -/
def renderOne (cfg : RenderCfg) (message : String) (meta : JSVal)
    (frames : List Frame) : String :=
  let fs := cfg.frameSep.getD " < "
  let stack := closeStack (buildStack cfg.hid cfg.cwd frames none [])
  (if message = "" then "" else message ++ fs) ++
  (if truthy meta then
     (if typeofObject meta then cfg.json meta cfg.prettyMeta else jsToString meta) ++ " "
   else "") ++
  joinWith fs stack

/-- The full render of `Error.prepareStackTrace`: the single-boundary text,
    then, if `e.prev` is present, the fiber separator followed by the
    previous error's own fully rendered text (`e.prev.stack`), recursively. -/
def render (cfg : RenderCfg) : SE → String
  | .mk m meta frames prev =>
      renderOne cfg m meta frames ++
      match prev with
      | none => ""
      | some p => cfg.fiberSep.getD " << " ++ render cfg p

/-- The boundary chain of an error, most recent boundary first. -/
def chain : SE → List SE
  | .mk m meta frames prev =>
      .mk m meta frames prev ::
      match prev with
      | none => []
      | some p => chain p

/-- The number of boundaries in the chain. -/
def depth : SE → Nat
  | .mk _ _ _ none => 1
  | .mk _ _ _ (some p) => 1 + depth p

/-- The single-boundary segment of one chain element. -/
def renderTop (cfg : RenderCfg) : SE → String
  | .mk m meta frames _ => renderOne cfg m meta frames

/-! ## Specification-side view of the frame loop

The loop in `prepareStackTrace` filters and coalesces in one pass.  The
definitions below restate its output as: filter the derived `(name, line)`
pairs, group maximal runs of consecutive equal names, and render each run as
one entry.  `buildStack_eq_runs` proves the loop equal to this view. -/

/-- The `(shortened name, line indicator)` pair derived for each raw frame. -/
def framePairs (cwd : String) (frames : List Frame) : List (String × String) :=
  frames.map (fun f => (frameName cwd f, lineStr f))

/-- The derived pairs that survive the hiding filter. -/
def survivorPairs (hid : Bool) (cwd : String) (frames : List Frame) :
    List (String × String) :=
  (framePairs cwd frames).filter (fun p => !hiddenB hid p.1)

/-- Group maximal runs of consecutive pairs with equal names. -/
def coalesceRuns : List (String × String) → List (String × List String)
  | [] => []
  | (n, ln) :: rest =>
      match coalesceRuns rest with
      | [] => [(n, [ln])]
      | (n', ls) :: gs =>
          if n = n' then (n, ln :: ls) :: gs else (n, [ln]) :: (n', ls) :: gs

/-- The entry the loop produces for one run (before the closing parenthesis):
    the line indicators are joined by the hard-coded `' < '`. -/
def runEntry (g : String × List String) : String :=
  g.1 ++ "(" ++ joinWith " < " g.2

/-- The entry the specification claims for one run: the line indicators joined
    by the *configured* frame separator. -/
def claimRunEntry (sep : String) (g : String × List String) : String :=
  g.1 ++ "(" ++ joinWith sep g.2 ++ ")"

/-- The frame loop restated on derived pairs. -/
def buildPairs (hid : Bool) : List (String × String) → Option String → List String → List String
  | [], _, acc => acc
  | (n, ln) :: rest, prev, acc =>
      if hiddenB hid n then buildPairs hid rest prev acc
      else if prev = some n then
        buildPairs hid rest (some n) (extendLast acc (" < " ++ ln))
      else
        buildPairs hid rest (some n) (acc ++ [n ++ "(" ++ ln])

/-- The frame loop on pairs that already survived the filter. -/
def buildSurv : List (String × String) → Option String → List String → List String
  | [], _, acc => acc
  | (n, ln) :: rest, prev, acc =>
      if prev = some n then
        buildSurv rest (some n) (extendLast acc (" < " ++ ln))
      else
        buildSurv rest (some n) (acc ++ [n ++ "(" ++ ln])

/-- What the loop adds to an accumulator: a string appended to the
    accumulator's last entry, and the list of freshly pushed entries. -/
def buildDelta : List (String × String) → Option String → String × List String
  | [], _ => ("", [])
  | (n, ln) :: rest, prev =>
      if prev = some n then
        let d := buildDelta rest (some n)
        (" < " ++ ln ++ d.1, d.2)
      else
        let d := buildDelta rest (some n)
        ("", (n ++ "(" ++ ln ++ d.1) :: d.2)

/-- The join of the non-leading lines of a run, each preceded by `' < '`. -/
def extOf : List String → String
  | [] => ""
  | l :: ls => " < " ++ l ++ extOf ls

theorem extendLast_empty (acc : List String) : extendLast acc "" = acc := by
  induction acc with
  | nil => rfl
  | cons x xs ih =>
      cases xs with
      | nil => simp [extendLast]
      | cons y ys => simpa [extendLast] using ih

theorem extendLast_ne_nil (l : List String) (h : l ≠ []) (s : String) :
    extendLast l s ≠ [] := by
  cases l with
  | nil => exact absurd rfl h
  | cons x xs => cases xs <;> simp [extendLast]

theorem extendLast_cons (x : String) (l : List String) (h : l ≠ []) (s : String) :
    extendLast (x :: l) s = x :: extendLast l s := by
  cases l with
  | nil => exact absurd rfl h
  | cons y ys => rfl

theorem extendLast_twice (acc : List String) (a b : String) :
    extendLast (extendLast acc a) b = extendLast acc (a ++ b) := by
  induction acc with
  | nil => rfl
  | cons x xs ih =>
      cases xs with
      | nil => simp [extendLast, String.append_assoc]
      | cons y ys =>
          rw [extendLast_cons x (y :: ys) (by simp) a,
              extendLast_cons x (extendLast (y :: ys) a)
                (extendLast_ne_nil _ (by simp) a) b,
              ih, extendLast_cons x (y :: ys) (by simp) (a ++ b)]

theorem extendLast_concat (acc : List String) (x s : String) :
    extendLast (acc ++ [x]) s = acc ++ [x ++ s] := by
  induction acc with
  | nil => rfl
  | cons a as ih =>
      cases h : as ++ [x] with
      | nil => simp at h
      | cons y ys =>
          simp only [List.cons_append, h, extendLast]
          rw [← h, ih]

theorem joinWith_ext (ln : String) (ls : List String) :
    joinWith " < " (ln :: ls) = ln ++ extOf ls := by
  induction ls generalizing ln with
  | nil => simp [joinWith, extOf]
  | cons y ys ih => simp [joinWith, extOf, ih, String.append_assoc]

theorem buildStack_eq_pairs (hid : Bool) (cwd : String) (frames : List Frame)
    (prev : Option String) (acc : List String) :
    buildStack hid cwd frames prev acc = buildPairs hid (framePairs cwd frames) prev acc := by
  induction frames generalizing prev acc with
  | nil => rfl
  | cons f rest ih =>
      simp only [buildStack, framePairs, List.map_cons, buildPairs]
      split
      · exact ih prev acc
      · split <;> exact ih _ _

theorem buildPairs_eq_surv (hid : Bool) (pairs : List (String × String))
    (prev : Option String) (acc : List String) :
    buildPairs hid pairs prev acc =
      buildSurv (pairs.filter (fun p => !hiddenB hid p.1)) prev acc := by
  induction pairs generalizing prev acc with
  | nil => rfl
  | cons p rest ih =>
      obtain ⟨n, ln⟩ := p
      by_cases h : hiddenB hid n = true
      · simp [buildPairs, h, List.filter_cons, ih]
      · have hb : hiddenB hid n = false := by simpa using h
        by_cases h2 : prev = some n <;>
          simp [buildPairs, hb, List.filter_cons, buildSurv, ih, h2]

theorem buildSurv_delta (pairs : List (String × String)) (prev : Option String)
    (acc : List String) :
    buildSurv pairs prev acc =
      extendLast acc (buildDelta pairs prev).1 ++ (buildDelta pairs prev).2 := by
  induction pairs generalizing prev acc with
  | nil => simp [buildSurv, buildDelta, extendLast_empty]
  | cons p rest ih =>
      obtain ⟨n, ln⟩ := p
      by_cases h : prev = some n
      · simp only [buildSurv, h, if_true, buildDelta, if_pos]
        rw [ih _ _, extendLast_twice]
      · rw [buildSurv, if_neg h, ih _ _]
        simp only [buildDelta, if_neg h]
        rw [extendLast_concat]
        simp [extendLast_empty, String.append_assoc]

theorem buildDelta_runs (pairs : List (String × String)) :
    ∀ p : String,
      buildDelta pairs (some p) =
        (match coalesceRuns pairs with
         | [] => ("", [])
         | (n, ls) :: gs =>
             if n = p then (extOf ls, gs.map runEntry)
             else ("", ((n, ls) :: gs).map runEntry)) := by
  induction pairs with
  | nil => intro p; rfl
  | cons q rest ih =>
      obtain ⟨n, ln⟩ := q
      intro p
      have ihn := ih n
      cases hr : coalesceRuns rest with
      | nil =>
          rw [hr] at ihn
          simp only at ihn
          by_cases hp : p = n
          · subst hp
            simp [buildDelta, coalesceRuns, hr, ihn, extOf]
          · simp [buildDelta, coalesceRuns, hr, ihn, runEntry, joinWith,
                  Option.some.injEq, hp, Ne.symm hp]
      | cons g gs =>
          obtain ⟨n1, ls⟩ := g
          rw [hr] at ihn
          simp only at ihn
          by_cases hn1 : n1 = n
          · subst hn1
            simp only [if_pos rfl] at ihn
            by_cases hp : p = n1
            · subst hp
              simp [buildDelta, coalesceRuns, hr, ihn, extOf]
            · simp [buildDelta, coalesceRuns, hr, ihn, runEntry, joinWith_ext,
                    Option.some.injEq, hp, Ne.symm hp, String.append_assoc]
          · simp only [if_neg hn1] at ihn
            by_cases hp : p = n
            · subst hp
              simp [buildDelta, coalesceRuns, hr, ihn, extOf, hn1, Ne.symm hn1]
            · simp [buildDelta, coalesceRuns, hr, ihn, runEntry, joinWith,
                    Option.some.injEq, hp, Ne.symm hp, hn1, Ne.symm hn1, extOf,
                    String.append_assoc]

theorem buildDelta_none (pairs : List (String × String)) :
    buildDelta pairs none = ("", (coalesceRuns pairs).map runEntry) := by
  cases pairs with
  | nil => rfl
  | cons q rest =>
      obtain ⟨n, ln⟩ := q
      have h := buildDelta_runs rest n
      cases hr : coalesceRuns rest with
      | nil =>
          rw [hr] at h
          simp only at h
          simp [buildDelta, coalesceRuns, hr, h, runEntry, joinWith]
      | cons g gs =>
          obtain ⟨n1, ls⟩ := g
          rw [hr] at h
          simp only at h
          by_cases hn1 : n1 = n
          · subst hn1
            simp only [if_pos rfl] at h
            simp [buildDelta, coalesceRuns, hr, h, runEntry, joinWith_ext,
                  String.append_assoc]
          · simp only [if_neg hn1] at h
            simp [buildDelta, coalesceRuns, hr, h, runEntry, joinWith, hn1,
                  Ne.symm hn1, extOf, String.append_assoc]

theorem stack_runs (hid : Bool) (cwd : String) (frames : List Frame) :
    closeStack (buildStack hid cwd frames none []) =
      (coalesceRuns (survivorPairs hid cwd frames)).map (fun g => runEntry g ++ ")") := by
  rw [buildStack_eq_pairs, buildPairs_eq_surv, buildSurv_delta, buildDelta_none]
  simp [closeStack, extendLast, survivorPairs, List.map_map, Function.comp]

/-! ## Helper lemmas about the wrapper -/

/-- The reference of the error object that the catch clause (or `_e`) ends up
    throwing/handling: the existing reference for an `Error`, the freshly
    allocated one otherwise. -/
def catchErrRef (st : Store) : JSVal → Nat
  | .errv r => r
  | _ => st.next

/-- The store after the promotion step of the catch clause. -/
def catchAllocSt (st : Store) : JSVal → Store
  | .errv _ => st
  | v => (alloc st ⟨jsErrorMessage v, none, none⟩).1

/-- The store after `_e` throws a truthy non-meta value. -/
def eThrowSt (st : Store) : JSVal → Store
  | .errv _ => st
  | v => (alloc st ⟨jsToString v, none, none⟩).1

theorem getErr_setPrev (st : Store) (r p : Nat) :
    (getErr (setPrev st r p) r).prev = some p := by
  simp [getErr, setPrev, putErr]

theorem e_eq_throw (st : Store) (v : JSVal) (hv : truthy v = true) :
    _e st v .undef = (eThrowSt st v, some (catchErrRef st v)) := by
  cases v <;> simp_all [_e, truthy, eThrowSt, catchErrRef, alloc]

theorem e_eq_falsy (st : Store) (v meta : JSVal) (hv : truthy v = false) :
    _e st v meta = (st, none) := by
  simp [_e, hv]

theorem catchPath_delivers (w : Wrapper) (cb1 v : JSVal) (st : Store)
    (hcb : truthy cb1 = true) :
    (catchPath w cb1 v st).2 = .delivered cb1 (catchErrRef st v) ∧
    (getErr (catchPath w cb1 v st).1 (catchErrRef st v)).prev = some w.prev := by
  cases v <;>
    simp [catchPath, catchErrRef, catchAllocSt, hcb, getErr, setPrev, putErr, alloc]

theorem catchPath_throws (w : Wrapper) (cb1 v : JSVal) (st : Store)
    (hcb : truthy cb1 = false) :
    (catchPath w cb1 v st).2 = .thrown (.errv (catchAllocSt st v).next) ∧
    (getErr (catchPath w cb1 v st).1 (catchAllocSt st v).next).message =
      "missing callback" := by
  cases v <;>
    simp [catchPath, catchErrRef, catchAllocSt, hcb, getErr, setPrev, putErr, alloc]

theorem catchPath_handler (w : Wrapper) (cb1 v : JSVal) (st : Store)
    (hv : JSVal) (e : Nat) (h : (catchPath w cb1 v st).2 = .delivered hv e) :
    hv = cb1 := by
  by_cases hcb : truthy cb1 = true
  · rw [(catchPath_delivers w cb1 v st hcb).1] at h
    exact (InvokeResult.delivered.injEq _ _ _ _ ▸ h).1.symm
  · have hcbf : truthy cb1 = false := by simpa using hcb
    rw [(catchPath_throws w cb1 v st hcbf).1] at h
    cases h

theorem invoke_fst (w : Wrapper) (func : FuncB) (cb0 : JSVal) (args : List JSVal)
    (st : Store) : (invoke w func cb0 args st).1 = resolveCb cb0 args := by
  unfold invoke
  split <;> rfl

theorem invoke_result_cases (w : Wrapper) (func : FuncB) (cb0 : JSVal)
    (args : List JSVal) (st : Store) :
    (invoke w func cb0 args st).2.2 = .normal ∨
    ∃ v stx, (invoke w func cb0 args st).2 = catchPath w (resolveCb cb0 args) v stx := by
  unfold invoke
  split
  · next st1 r _ => right; exact ⟨.errv r, st1, rfl⟩
  · next st1 _ =>
      rcases hf : func args st1 with ⟨st2, o⟩
      cases o with
      | none => left; simp only [hf, finish]
      | some v => right; exact ⟨v, st2, by simp only [hf, finish]⟩

theorem invoke_handler (w : Wrapper) (func : FuncB) (cb0 : JSVal)
    (args : List JSVal) (st : Store) (hv : JSVal) (e : Nat)
    (h : (invoke w func cb0 args st).2.2 = .delivered hv e) :
    hv = resolveCb cb0 args := by
  rcases invoke_result_cases w func cb0 args st with hn | ⟨v, stx, hc⟩
  · rw [hn] at h; cases h
  · have h2 : (catchPath w (resolveCb cb0 args) v stx).2 = .delivered hv e := by
      rw [← hc]; exact h
    exact catchPath_handler _ _ _ _ _ _ h2

theorem invoke_chk_throw (w : Wrapper) (func : FuncB) (cb0 : JSVal)
    (args : List JSVal) (st : Store) (hchk : w.chk = true)
    (hh : truthy (args.headD .undef) = true) :
    invoke w func cb0 args st =
      (resolveCb cb0 args,
       catchPath w (resolveCb cb0 args)
         (.errv (catchErrRef st (args.headD .undef)))
         (eThrowSt st (args.headD .undef))) := by
  unfold invoke
  rw [if_pos hchk, e_eq_throw st _ hh]

theorem check_no_throw (w : Wrapper) (st : Store) (args : List JSVal)
    (h : w.chk = false ∨ truthy (args.headD .undef) = false) :
    (if w.chk then _e st (args.headD .undef) .undef else (st, none)) = (st, none) := by
  rcases h with h | h
  · simp [h]
  · by_cases hchk : w.chk = true
    · rw [if_pos hchk]; exact e_eq_falsy _ _ _ h
    · rw [if_neg hchk]

theorem invoke_nothrow (w : Wrapper) (func : FuncB) (cb0 : JSVal)
    (args : List JSVal) (st : Store)
    (hnone : (if w.chk then _e st (args.headD .undef) .undef else (st, none)) = (st, none)) :
    invoke w func cb0 args st =
      (resolveCb cb0 args, finish w (resolveCb cb0 args) (func args st)) := by
  unfold invoke
  rw [hnone]

theorem e_throw_nonerr (st : Store) (e meta : JSVal) (ht : truthy e = true)
    (hne : ∀ r0, e ≠ .errv r0) :
    _e st e meta =
      ((if truthy meta then
          setMeta (alloc st ⟨jsToString e, none, none⟩).1 st.next meta
        else (alloc st ⟨jsToString e, none, none⟩).1), some st.next) := by
  cases e <;> first
    | exact absurd rfl (hne _)
    | simp_all [_e, truthy, alloc]

/-! ## Helper lemmas about the renderer -/

theorem coalesceRuns_names (pairs : List (String × String)) :
    ∀ n ls, (n, ls) ∈ coalesceRuns pairs → ∃ l, (n, l) ∈ pairs := by
  induction pairs with
  | nil => intro n ls h; simp [coalesceRuns] at h
  | cons q rest ih =>
      obtain ⟨m, lm⟩ := q
      intro n ls h
      cases hr : coalesceRuns rest with
      | nil =>
          rw [coalesceRuns, hr] at h
          simp only [List.mem_singleton, Prod.mk.injEq] at h
          exact ⟨lm, by simp [h.1]⟩
      | cons g gs =>
          obtain ⟨n1, ls1⟩ := g
          rw [coalesceRuns, hr] at h
          simp only at h
          by_cases hm : m = n1
          · subst hm
            rw [if_pos rfl] at h
            rcases List.mem_cons.mp h with h1 | h1
            · obtain ⟨h2, _⟩ := Prod.mk.injEq .. ▸ h1
              exact ⟨lm, by simp [h2]⟩
            · have hmem : (n, ls) ∈ coalesceRuns rest := by
                rw [hr]; exact List.mem_cons_of_mem _ h1
              obtain ⟨l, hl⟩ := ih n ls hmem
              exact ⟨l, List.mem_cons_of_mem _ hl⟩
          · rw [if_neg hm] at h
            rcases List.mem_cons.mp h with h1 | h1
            · obtain ⟨h2, _⟩ := Prod.mk.injEq .. ▸ h1
              exact ⟨lm, by simp [h2]⟩
            · have hmem : (n, ls) ∈ coalesceRuns rest := by rw [hr]; exact h1
              obtain ⟨l, hl⟩ := ih n ls hmem
              exact ⟨l, List.mem_cons_of_mem _ hl⟩

theorem joinWith_cons (sep x : String) (l : List String) (h : l ≠ []) :
    joinWith sep (x :: l) = x ++ sep ++ joinWith sep l := by
  cases l with
  | nil => exact absurd rfl h
  | cons y ys => rfl

theorem chain_ne_nil (e : SE) : chain e ≠ [] := by
  cases e with
  | mk m meta frames p => rw [chain.eq_def]; exact List.cons_ne_nil _ _

/-! ## Concrete fixtures used by witnesses and counterexamples -/

/-- A wrapped callback body that returns normally. -/
def nopF : FuncB := fun _ st => (st, none)

/-- A wrapped callback body that throws the plain string `"boom"`. -/
def boomF : FuncB := fun _ st => (st, some (.strv "boom"))

/-- A store whose origin-capture error lives at reference `0`. -/
def wst : Store := ⟨fun _ => ⟨"", none, none⟩, 1⟩

/-- A store with origin captures at references `0` and `1` and a user error
    `"boom"` at reference `2`. -/
def st3 : Store :=
  ⟨fun r => if r = 2 then ⟨"boom", none, none⟩ else ⟨"", none, none⟩, 3⟩

/-! ## The claims -/

/-- C1: whenever the error-first check or the wrapped callback logic raises
    any value inside an invoked `WrapperInstance`, the wrapper catches it,
    normalizes it into a structured error, sets its `prev` link to the
    origin-capture error taken at construction time, and invokes the effective
    completion handler exactly once with that single error as its only
    argument — it never re-throws the operation failure past the boundary —
    provided an effective completion handler is resolvable.  (The invocation
    either completes normally, meaning nothing was raised, or ends in exactly
    one `delivered` event to the resolved handler, whose error has
    `prev = w.prev`.) -/
theorem wrapper_catch_delivers (w : Wrapper) (func : FuncB) (cb0 : JSVal)
    (args : List JSVal) (st : Store)
    (hcb : truthy (resolveCb cb0 args) = true) :
    (invoke w func cb0 args st).2.2 = .normal ∨
    ∃ e, (invoke w func cb0 args st).2.2 = .delivered (resolveCb cb0 args) e ∧
      (getErr (invoke w func cb0 args st).2.1 e).prev = some w.prev := by
  rcases invoke_result_cases w func cb0 args st with hn | ⟨v, stx, hc⟩
  · exact Or.inl hn
  · right
    have hd := catchPath_delivers w (resolveCb cb0 args) v stx hcb
    refine ⟨catchErrRef stx v, ?_, ?_⟩
    · have h2 : (invoke w func cb0 args st).2.2 =
          (catchPath w (resolveCb cb0 args) v stx).2 := by rw [hc]
      rw [h2]; exact hd.1
    · have h1 : (invoke w func cb0 args st).2.1 =
          (catchPath w (resolveCb cb0 args) v stx).1 := by rw [hc]
      rw [h1]; exact hd.2

/-- Witness for C1 at a concrete input: the wrapped logic throws the string
    `"boom"`, the handler `funcv 1` was supplied, and the invocation delivers
    a structured error whose `prev` is the origin capture at reference `0`. -/
theorem wrapper_catch_delivers_witness :
    truthy (resolveCb (.funcv 1) [.strv "x"]) = true ∧
    ((invoke ⟨false, 0⟩ boomF (.funcv 1) [.strv "x"] wst).2.2 = .normal ∨
     ∃ e, (invoke ⟨false, 0⟩ boomF (.funcv 1) [.strv "x"] wst).2.2 =
            .delivered (resolveCb (.funcv 1) [.strv "x"]) e ∧
          (getErr (invoke ⟨false, 0⟩ boomF (.funcv 1) [.strv "x"] wst).2.1 e).prev =
            some (Wrapper.mk false 0).prev) :=
  ⟨by decide, wrapper_catch_delivers ⟨false, 0⟩ boomF (.funcv 1) [.strv "x"] wst (by decide)⟩

/-- C2: for a `WrapperInstance` with `chk = true` and a resolvable completion
    handler, a non-falsy first argument makes the invocation deliver a
    structured error to the handler with the wrapped logic never executed (the
    whole invocation outcome is independent of `func`); a falsy first argument
    makes the check raise nothing and the wrapped logic run with all received
    arguments on the unchanged store. -/
theorem wrapper_errcheck (w : Wrapper) (func func2 : FuncB) (cb0 : JSVal)
    (args : List JSVal) (st : Store)
    (hchk : w.chk = true) (hcb : truthy (resolveCb cb0 args) = true) :
    (truthy (args.headD .undef) = true →
       (∃ e, (invoke w func cb0 args st).2.2 =
          .delivered (resolveCb cb0 args) e) ∧
       invoke w func cb0 args st = invoke w func2 cb0 args st) ∧
    (truthy (args.headD .undef) = false →
       invoke w func cb0 args st =
         (resolveCb cb0 args, finish w (resolveCb cb0 args) (func args st))) := by
  constructor
  · intro hh
    have h1 := invoke_chk_throw w func cb0 args st hchk hh
    have h2 := invoke_chk_throw w func2 cb0 args st hchk hh
    constructor
    · refine ⟨catchErrRef st (args.headD .undef), ?_⟩
      rw [h1]
      exact (catchPath_delivers w (resolveCb cb0 args) _ _ hcb).1
    · rw [h1, h2]
  · intro hh
    exact invoke_nothrow w func cb0 args st (check_no_throw w st args (Or.inr hh))

/-- Witness for C2 at a concrete input: `chk = true`, the handler `funcv 1`
    supplied, invoked with the truthy error-first argument `"err"`. -/
theorem wrapper_errcheck_witness :
    (Wrapper.mk true 0).chk = true ∧
    truthy (resolveCb (.funcv 1) [.strv "err"]) = true ∧
    ((truthy (([.strv "err"] : List JSVal).headD .undef) = true →
        (∃ e, (invoke ⟨true, 0⟩ nopF (.funcv 1) [.strv "err"] wst).2.2 =
           .delivered (resolveCb (.funcv 1) [.strv "err"]) e) ∧
        invoke ⟨true, 0⟩ nopF (.funcv 1) [.strv "err"] wst =
          invoke ⟨true, 0⟩ boomF (.funcv 1) [.strv "err"] wst) ∧
     (truthy (([.strv "err"] : List JSVal).headD .undef) = false →
        invoke ⟨true, 0⟩ nopF (.funcv 1) [.strv "err"] wst =
          (resolveCb (.funcv 1) [.strv "err"],
           finish ⟨true, 0⟩ (resolveCb (.funcv 1) [.strv "err"])
             (nopF [.strv "err"] wst)))) :=
  ⟨rfl, by decide,
   wrapper_errcheck ⟨true, 0⟩ nopF boomF (.funcv 1) [.strv "err"] wst rfl (by decide)⟩

/-- Counterexample to C3 as stated: on the failure path with no resolvable
    completion handler the wrapper does not re-raise the original failure
    (the error `"boom"` at reference `2`); it throws a freshly allocated
    `Error('missing callback')` (reference `3`) instead. -/
theorem wrapper_missing_cb_cex :
    (invoke ⟨true, 0⟩ nopF .undef [.errv 2] st3).2.2 = .thrown (.errv 3) ∧
    (getErr (invoke ⟨true, 0⟩ nopF .undef [.errv 2] st3).2.1 3).message =
      "missing callback" ∧
    (getErr st3 2).message = "boom" ∧ (3 : Nat) ≠ 2 := by decide

/-- C3 (amended): if no effective completion handler can be determined on the
    failure path of an invoked `WrapperInstance`, the wrapper raises uncaught
    a freshly constructed `Error('missing callback')` — not the original
    failure, which is discarded after being linked — so the invocation still
    fails fatally rather than being swallowed or delivered. -/
theorem wrapper_missing_cb_fatal (w : Wrapper) (func : FuncB) (cb0 : JSVal)
    (args : List JSVal) (st : Store)
    (hcb : truthy (resolveCb cb0 args) = false) :
    (invoke w func cb0 args st).2.2 = .normal ∨
    ∃ m, (invoke w func cb0 args st).2.2 = .thrown (.errv m) ∧
      (getErr (invoke w func cb0 args st).2.1 m).message = "missing callback" := by
  rcases invoke_result_cases w func cb0 args st with hn | ⟨v, stx, hc⟩
  · exact Or.inl hn
  · right
    have hd := catchPath_throws w (resolveCb cb0 args) v stx hcb
    refine ⟨(catchAllocSt stx v).next, ?_, ?_⟩
    · have h2 : (invoke w func cb0 args st).2.2 =
          (catchPath w (resolveCb cb0 args) v stx).2 := by rw [hc]
      rw [h2]; exact hd.1
    · have h1 : (invoke w func cb0 args st).2.1 =
          (catchPath w (resolveCb cb0 args) v stx).1 := by rw [hc]
      rw [h1]; exact hd.2

/-- Witness for C3 (amended) at a concrete input: no handler is supplied and
    none is inferable (the only argument is an error value), so the failing
    invocation ends in an uncaught `'missing callback'` error. -/
theorem wrapper_missing_cb_fatal_witness :
    truthy (resolveCb .undef [.errv 2]) = false ∧
    ((invoke ⟨true, 0⟩ nopF .undef [.errv 2] st3).2.2 = .normal ∨
     ∃ m, (invoke ⟨true, 0⟩ nopF .undef [.errv 2] st3).2.2 = .thrown (.errv m) ∧
       (getErr (invoke ⟨true, 0⟩ nopF .undef [.errv 2] st3).2.1 m).message =
         "missing callback") :=
  ⟨by decide, wrapper_missing_cb_fatal ⟨true, 0⟩ nopF .undef [.errv 2] st3 (by decide)⟩

/-- Counterexample to C9 as stated: the same error object (reference `2`)
    crosses two boundaries; the first crossing attaches `prev = 0` and
    delivers, the second crossing mutates the already delivered error again,
    overwriting its `prev` with `1`. -/
theorem prev_overwrite_cex :
    (getErr (invoke ⟨true, 0⟩ nopF .undef [.errv 2, .funcv 7] st3).2.1 2).prev =
      some 0 ∧
    (invoke ⟨true, 0⟩ nopF .undef [.errv 2, .funcv 7] st3).2.2 =
      .delivered (.funcv 7) 2 ∧
    (getErr (invoke ⟨true, 1⟩ nopF .undef [.errv 2, .funcv 8]
        (invoke ⟨true, 0⟩ nopF .undef [.errv 2, .funcv 7] st3).2.1).2.1 2).prev =
      some 1 ∧
    (some 0 : Option Nat) ≠ some 1 := by decide

/-- C9 (amended): a structured error is mutated on *every* failure-path
    boundary crossing, not at most once: each invocation that catches the
    error at reference `r` sets its `prev` to that wrapper's own origin
    capture, overwriting whatever `prev` was attached before — including after
    the error was already delivered to a completion handler once.  (`r`
    ranges over previously allocated references.) -/
theorem prev_overwritten (w : Wrapper) (func : FuncB) (cb0 : JSVal)
    (args : List JSVal) (st : Store) (r : Nat)
    (hchk : w.chk = true)
    (hhead : args.head? = some (JSVal.errv r))
    (hr : r < st.next) :
    (getErr (invoke w func cb0 args st).2.1 r).prev = some w.prev := by
  have hh : args.headD .undef = .errv r := by
    cases args with
    | nil => cases hhead
    | cons a as =>
        have : a = .errv r := by simpa using hhead
        simpa using this
  have h1 := invoke_chk_throw w func cb0 args st hchk (by rw [hh]; rfl)
  rw [h1, hh]
  by_cases hcb : truthy (resolveCb cb0 args) = true
  · exact (catchPath_delivers w (resolveCb cb0 args) (.errv r) st hcb).2
  · have hcbf : truthy (resolveCb cb0 args) = false := by simpa using hcb
    simp [catchPath, hcbf, getErr, alloc, setPrev, putErr, eThrowSt, catchErrRef,
          Nat.ne_of_lt hr]

/-- Witness for C9 (amended) at a concrete input: the error at reference `2`
    (with `2 < 3 = st3.next`) passed as the error-first argument ends up with
    `prev` equal to this wrapper's origin capture `0`. -/
theorem prev_overwritten_witness :
    (Wrapper.mk true 0).chk = true ∧
    ([JSVal.errv 2, JSVal.funcv 7].head? = some (JSVal.errv 2)) ∧
    (2 : Nat) < st3.next ∧
    (getErr (invoke ⟨true, 0⟩ nopF .undef [.errv 2, .funcv 7] st3).2.1 2).prev =
      some (Wrapper.mk true 0).prev :=
  ⟨rfl, rfl, by decide,
   prev_overwritten ⟨true, 0⟩ nopF .undef [.errv 2, .funcv 7] st3 2 rfl rfl (by decide)⟩

/-- C10: once an invocation of a `WrapperInstance` built without a completion
    handler has adopted a trailing function argument `funcv f` as the handler,
    that handler is stored in the instance's `cb` slot, and any later
    invocation that starts from the stored slot delivers failures to
    `funcv f`, even if the later invocation's own last argument is a different
    function — the instance is not stateless across invocations. -/
theorem cb_slot_persists (w : Wrapper) (func func2 : FuncB) (cb0 : JSVal)
    (args1 args2 : List JSVal) (st st2 : Store) (f : Nat) (hv : JSVal) (e : Nat)
    (h0 : truthy cb0 = false)
    (h1 : args1.getLast? = some (JSVal.funcv f))
    (h2 : (invoke w func2 ((invoke w func cb0 args1 st).1) args2 st2).2.2 =
            .delivered hv e) :
    (invoke w func cb0 args1 st).1 = JSVal.funcv f ∧ hv = JSVal.funcv f := by
  have hslot : (invoke w func cb0 args1 st).1 = JSVal.funcv f := by
    rw [invoke_fst]
    simp [resolveCb, h0, h1, isFunc]
  refine ⟨hslot, ?_⟩
  have h3 := invoke_handler w func2 _ args2 st2 hv e h2
  rw [hslot] at h3
  simpa [resolveCb, truthy] using h3

/-- Witness for C10 at a concrete input: the first invocation adopts
    `funcv 5`; a second invocation whose last argument is the different
    function `funcv 6` still delivers to `funcv 5`. -/
theorem cb_slot_persists_witness :
    truthy JSVal.undef = false ∧
    ([JSVal.funcv 5].getLast? = some (JSVal.funcv 5)) ∧
    ((invoke ⟨true, 0⟩ nopF ((invoke ⟨true, 0⟩ nopF .undef [.funcv 5] st3).1)
        [.errv 2, .funcv 6] st3).2.2 = .delivered (.funcv 5) 2) ∧
    ((invoke ⟨true, 0⟩ nopF .undef [.funcv 5] st3).1 = JSVal.funcv 5 ∧
     (JSVal.funcv 5 : JSVal) = JSVal.funcv 5) :=
  ⟨by decide, rfl, by decide,
   cb_slot_persists ⟨true, 0⟩ nopF nopF .undef [.funcv 5] [.errv 2, .funcv 6]
     st3 st3 5 (.funcv 5) 2 (by decide) rfl (by decide)⟩

/-- Counterexample to C4 as stated: metadata is supplied (`0`), but because
    `0` is falsy, `_e("boom", 0)` raises the wrapped error *without* attaching
    the metadata. -/
theorem e_falsy_meta_cex :
    (_e emptyStore (.strv "boom") (.numv 0)).2 = some 0 ∧
    (getErr (_e emptyStore (.strv "boom") (.numv 0)).1 0).message = "boom" ∧
    (getErr (_e emptyStore (.strv "boom") (.numv 0)).1 0).meta = none ∧
    (none : Option JSVal) ≠ some (JSVal.numv 0) := by decide

/-- C4 (amended): `_e` returns normally with an untouched store for every
    falsy input; for every truthy input it raises an error — the input itself
    if it is already an `Error`, otherwise a fresh wrapper whose message is
    the input's string form — and, when the supplied metadata is *truthy*, it
    attaches that metadata (overwriting any previously attached metadata)
    before raising. -/
theorem e_check_wrap_throw (st : Store) (e meta : JSVal) :
    (truthy e = false → _e st e meta = (st, none)) ∧
    (truthy e = true →
      ∃ r st1, _e st e meta = (st1, some r) ∧
        (truthy meta = true → (getErr st1 r).meta = some meta) ∧
        (e = .errv r ∨
         ((∀ r0, e ≠ .errv r0) ∧ (getErr st1 r).message = jsToString e))) := by
  constructor
  · intro h; exact e_eq_falsy st e meta h
  · intro h
    by_cases he : ∃ r0, e = .errv r0
    · obtain ⟨r0, rfl⟩ := he
      refine ⟨r0, if truthy meta then setMeta st r0 meta else st, ?_, ?_, Or.inl rfl⟩
      · simp [_e, truthy]
      · intro hm
        simp [hm, getErr, setMeta, putErr]
    · have hne : ∀ r0, e ≠ .errv r0 := by push_neg at he; exact he
      refine ⟨st.next, _, e_throw_nonerr st e meta h hne, ?_, Or.inr ⟨hne, ?_⟩⟩
      · intro hm
        simp [hm, getErr, setMeta, putErr, alloc]
      · by_cases hm : truthy meta = true <;>
          simp [hm, getErr, setMeta, putErr, alloc]

/-- Witness for C4 (amended) at concrete inputs: a falsy input is a no-op,
    and `_e("boom", objv 7)` raises a wrapped error with the truthy metadata
    attached. -/
theorem e_check_wrap_throw_witness :
    (truthy JSVal.undef = false ∧ _e emptyStore .undef (.objv 7) = (emptyStore, none)) ∧
    (truthy (JSVal.strv "boom") = true ∧
     ∃ r st1, _e emptyStore (.strv "boom") (.objv 7) = (st1, some r) ∧
       (truthy (JSVal.objv 7) = true → (getErr st1 r).meta = some (.objv 7)) ∧
       ((JSVal.strv "boom") = .errv r ∨
        ((∀ r0, (JSVal.strv "boom") ≠ .errv r0) ∧
         (getErr st1 r).message = jsToString (.strv "boom")))) :=
  ⟨⟨by decide, (e_check_wrap_throw emptyStore .undef (.objv 7)).1 (by decide)⟩,
   ⟨by decide, (e_check_wrap_throw emptyStore (.strv "boom") (.objv 7)).2 (by decide)⟩⟩

/-- Two consecutive raw frames from the same file, lines 1 and 2. -/
def framesA : List Frame :=
  [⟨some "./a.js", some 1, false, false⟩, ⟨some "./a.js", some 2, false, false⟩]

/-- Counterexample to C5 as stated: with the frame separator configured to
    `"\n"`, two consecutive frames from the same file are coalesced into one
    entry whose line indicators are joined by the hard-coded `' < '`, not by
    the configured separator as the claim predicts. -/
theorem frame_coalescing_cex :
    closeStack (buildStack false "Z" framesA none []) = ["./a.js(1 < 2)"] ∧
    (coalesceRuns (survivorPairs false "Z" framesA)).map (claimRunEntry "\n") =
      ["./a.js(1\n2)"] ∧
    (["./a.js(1 < 2)"] : List String) ≠ ["./a.js(1\n2)"] := by decide

/-- C5 (amended): during rendering, every maximal run of consecutive
    surviving stack frames sharing the same shortened file location is
    coalesced into one frame entry — the rendered stack is exactly the
    surviving `(location, line)` pairs grouped into maximal runs of equal
    locations, one entry per run — but the line indicators inside an entry
    are joined by the literal `' < '` (`runEntry`) regardless of the
    configured frame separator, which `buildStack` never receives. -/
theorem frame_coalescing (hid : Bool) (cwd : String) (frames : List Frame) :
    closeStack (buildStack hid cwd frames none []) =
      (coalesceRuns (survivorPairs hid cwd frames)).map (fun g => runEntry g ++ ")") :=
  stack_runs hid cwd frames

/-- The rendered text the C6 claim predicts: the message, then the frame
    separator, then the metadata segment, then the frames joined by the frame
    separator — unconditionally. -/
def claimComposeC6 (fs metaSeg m : String) (stack : List String) : String :=
  m ++ fs ++ metaSeg ++ joinWith fs stack

/-- A single raw frame used by the renderer counterexamples. -/
def frameB : Frame := ⟨some "./a.js", some 3, false, false⟩

/-- A default-configured renderer (no hiding, no indent, default separators)
    whose host serializer returns `""`. -/
def cfgC : RenderCfg := ⟨false, none, none, none, "Z", fun _ _ => ""⟩

/-- Counterexample to C6 as stated: a structured error with an empty message
    renders without the leading message-and-frame-separator segment, whereas
    the claimed composition prescribes it for every structured error. -/
theorem render_composition_cex :
    render cfgC (.mk "" .undef [frameB] none) = "./a.js(3)" ∧
    claimComposeC6 " < " "" "" ["./a.js(3)"] = " < ./a.js(3)" ∧
    ("./a.js(3)" : String) ≠ " < ./a.js(3)" := by decide

/-- C6 (amended): the rendered single-boundary text is composed as: the
    message followed by the frame separator *when the message is non-empty*;
    then, *when the attached metadata is truthy*, its serialization —
    `JSON.stringify(meta, null, prettyMeta)` for objects (pretty-printed with
    the configured indent, inline when the indent is absent), the string form
    otherwise — followed by exactly one space; then the coalesced frame
    entries joined by the frame separator; if a previous link is present, the
    boundary separator and its full render follow.  The separators default to
    `' < '` and `' << '` when not configured (`Option.getD`). -/
theorem render_composition (cfg : RenderCfg) (m : String) (meta : JSVal)
    (frames : List Frame) (p : Option SE) :
    render cfg (.mk m meta frames p) =
      (if m = "" then "" else m ++ cfg.frameSep.getD " < ") ++
      (if truthy meta then
         (if typeofObject meta then cfg.json meta cfg.prettyMeta
          else jsToString meta) ++ " "
       else "") ++
      joinWith (cfg.frameSep.getD " < ")
        (closeStack (buildStack cfg.hid cfg.cwd frames none [])) ++
      (match p with
       | none => ""
       | some q => cfg.fiberSep.getD " << " ++ render cfg q) := by
  cases p <;> rfl

/-- C7: rendering appends, for a present previous link, the boundary
    separator followed by the previous link's own fully rendered text,
    recursively with no depth bound: the full render of any structured error
    equals its boundary chain — most recent boundary first, oldest last —
    each boundary rendered as a single-boundary segment, joined by the
    boundary separator; and the chain has exactly one segment per linked
    error (`depth`). -/
theorem render_boundary_chain (cfg : RenderCfg) : ∀ e : SE,
    render cfg e =
      joinWith (cfg.fiberSep.getD " << ") ((chain e).map (renderTop cfg)) ∧
    (chain e).length = depth e
  | .mk m meta frames none => by
      constructor
      · rw [render.eq_def, chain.eq_def]
        simp [renderTop, joinWith]
      · rw [chain.eq_def]
        rfl
  | .mk m meta frames (some p) => by
      obtain ⟨ih1, ih2⟩ := render_boundary_chain cfg p
      have hnn : (chain p).map (renderTop cfg) ≠ [] := by
        intro hmap
        exact chain_ne_nil p (List.map_eq_nil_iff.mp hmap)
      constructor
      · have hmap : (chain (SE.mk m meta frames (some p))).map (renderTop cfg) =
            renderOne cfg m meta frames :: (chain p).map (renderTop cfg) := by
          rw [chain.eq_def]
          simp [renderTop]
        rw [hmap, joinWith_cons _ _ _ hnn, ← ih1, render.eq_def]
        simp only []
        rw [String.append_assoc]
      · have hch : chain (SE.mk m meta frames (some p)) =
            SE.mk m meta frames (some p) :: chain p := by
          rw [chain.eq_def]
        rw [hch]
        simp [depth, ih2, Nat.add_comm]

/-- C8: with hiding enabled, every entry of the rendered frame list is
    `location(lines)` for a shortened location that begins with the
    relative-path marker `'.'` or the absolute-path marker `'/'` and does not
    match the library's own `laeh2.js` filename suffix. -/
theorem hiding_frames (cwd : String) (frames : List Frame) (s : String)
    (hs : s ∈ closeStack (buildStack true cwd frames none [])) :
    ∃ n ls, s = runEntry (n, ls) ++ ")" ∧
      (n.front = '.' ∨ n.front = '/') ∧ laehMatch n = false := by
  rw [stack_runs] at hs
  rcases List.mem_map.mp hs with ⟨g, hg, rfl⟩
  obtain ⟨n, ls⟩ := g
  obtain ⟨l, hl⟩ := coalesceRuns_names _ n ls hg
  have hmem := List.mem_filter.mp hl
  have hhid : hiddenB true n = false := by
    have h2 := hmem.2
    simp only [Bool.not_eq_eq_eq_not, Bool.not_true] at h2
    exact h2
  have h3 : ((n.front != '.' && n.front != '/') || laehMatch n) = false := by
    simpa [hiddenB] using hhid
  have h4 := Bool.or_eq_false_iff.mp h3
  have hfront : n.front = '.' ∨ n.front = '/' := by
    rcases Bool.and_eq_false_iff.mp h4.1 with h | h
    · left; simpa using h
    · right; simpa using h
  exact ⟨n, ls, rfl, hfront, h4.2⟩

/-- A single application frame used by the C8 witness. -/
def framesW : List Frame := [⟨some "./app.js", some 3, false, false⟩]

/-- Witness for C8 at a concrete input: with hiding enabled, the rendered
    entry `./app.js(3)` has a location starting with `'.'` and not matching
    the library's filename suffix. -/
theorem hiding_frames_witness :
    ("./app.js(3)" ∈ closeStack (buildStack true "Z" framesW none [])) ∧
    ∃ n ls, "./app.js(3)" = runEntry (n, ls) ++ ")" ∧
      (n.front = '.' ∨ n.front = '/') ∧ laehMatch n = false :=
  ⟨by decide, hiding_frames "Z" framesW _ (by decide)⟩
